import Mathlib

/-!
Verification development for the Gomoku heuristic engine
(`src/worker/gomoku-ai.ts` of the GomokuLLM repository).

The board is modelled as a total function from (row, column) to a cell
value, mirroring the `number[][]` array indexed as `board[y][x]`.  All
in-place trial mutations of the source are modelled by explicit state
passing: each stateful routine takes the board and also returns the board
it leaves behind, so that the rollback discipline of the source is itself
a provable statement.  JavaScript floating-point numbers that feed only
sign/threshold comparisons (the center-distance bonus built from
`Math.sqrt`, and the 1.5/1.2 move weights) are modelled as exact real
numbers.
-/

namespace Gomoku

set_option maxRecDepth 100000

/-- Cell values, as in the source: `EMPTY = 0`, `BLACK = 1`, `WHITE = 2`. -/
abbrev EMPTY : Nat := 0
abbrev BLACK : Nat := 1
abbrev WHITE : Nat := 2

/-- `BOARD_SIZE = 15`. -/
abbrev boardSize : Int := 15

/-- A board maps `(y, x)` to a cell value, mirroring `board[y][x]`. -/
abbrev Board := Int → Int → Nat

/-- `board[y][x] = v`, as a functional update. -/
def setCell (b : Board) (y x : Int) (v : Nat) : Board :=
  fun y0 x0 => if y0 = y ∧ x0 = x then v else b y0 x0

/-- The bounds test `nx >= 0 && nx < BOARD_SIZE && ny >= 0 && ny < BOARD_SIZE`. -/
def inR (x y : Int) : Bool :=
  decide (0 ≤ x) && decide (x < 15) && decide (0 ≤ y) && decide (y < 15)

/-- The four axis directions of the source: horizontal, vertical and the
two diagonals. -/
def directions : List (Int × Int) := [(1, 0), (0, 1), (1, 1), (1, -1)]

/-- One probe of the counting loops of `checkWin`: the cell at offset `o`
along direction `(dx, dy)` from `(x, y)` is in range and holds `p`. -/
def stepOk (b : Board) (p : Nat) (x y dx dy o : Int) : Bool :=
  inR (x + dx * o) (y + dy * o) && (b (y + dy * o) (x + dx * o) == p)

/-- The per-direction stone count of `checkWin`: one for the queried cell,
plus the two `for (i = 1; i <= 4; ...)` loops that extend forward and
backward and break at the first failing probe (unrolled). -/
def lineCount (b : Board) (x y dx dy : Int) (p : Nat) : Nat :=
  let f := fun (o : Int) => stepOk b p x y dx dy o
  1 + (bif f 1 then bif f 2 then bif f 3 then bif f 4 then 4 else 3 else 2 else 1 else 0)
    + (bif f (-1) then bif f (-2) then bif f (-3) then bif f (-4) then 4 else 3 else 2 else 1 else 0)

/-- `checkWin(board, x, y, player)`: some axis through `(x, y)` counts at
least five stones, the queried cell counting once. -/
def checkWin (b : Board) (x y : Int) (p : Nat) : Bool :=
  directions.any fun d => decide (5 ≤ lineCount b x y d.1 d.2 p)

/-- One cell of a hypothetical five-run through `(x, y)`: the cell at
offset `o` is on the board and either is the queried cell itself (which
counts once for the player) or holds the player's stone. -/
def runCellOk (b : Board) (p : Nat) (x y dx dy o : Int) : Bool :=
  inR (x + dx * o) (y + dy * o) &&
    ((o == 0) || (b (y + dy * o) (x + dx * o) == p))

/-- The property claimed of `checkWin`: some axis carries a run of five
consecutive cells that contains `(x, y)` and consists of the player's
stones (the queried cell counting once).  The window start `j` ranges over
offsets `-4 .. 0`. -/
def fiveRunThrough (b : Board) (x y : Int) (p : Nat) : Bool :=
  directions.any fun d =>
    (List.range 5).any fun (j : Nat) =>
      (List.range 5).all fun (t : Nat) =>
        runCellOk b p x y d.1 d.2 ((j : Int) - 4 + (t : Int))

/-- `hasNeighbor(board, x, y)` with the default range 2: some other cell
within Chebyshev distance 2 is on the board and non-empty. -/
def hasNeighbor (b : Board) (x y : Int) : Bool :=
  (List.range 5).any fun (j : Nat) =>
    (List.range 5).any fun (i : Nat) =>
      let dy : Int := (j : Int) - 2
      let dx : Int := (i : Int) - 2
      !(dx == 0 && dy == 0) &&
        (inR (x + dx) (y + dy) && (b (y + dy) (x + dx) != 0))

/-- The `SHAPE_SCORES` table, in source order. -/
def shapeScores : List (Nat × List Nat) :=
  [ (50, [0, 1, 1, 0, 0]),
    (50, [0, 0, 1, 1, 0]),
    (200, [1, 1, 0, 1, 0]),
    (500, [0, 0, 1, 1, 1]),
    (500, [1, 1, 1, 0, 0]),
    (5000, [0, 1, 1, 1, 0]),
    (5000, [0, 1, 0, 1, 1, 0]),
    (5000, [0, 1, 1, 0, 1, 0]),
    (5000, [1, 1, 1, 0, 1]),
    (5000, [1, 1, 0, 1, 1]),
    (5000, [1, 0, 1, 1, 1]),
    (5000, [1, 1, 1, 1, 0]),
    (5000, [0, 1, 1, 1, 1]),
    (50000, [0, 1, 1, 1, 1, 0]),
    (99999999, [1, 1, 1, 1, 1]) ]

/-- One position of `matchPattern`: a shape value of 2/1/0 requires the
line value to equal it; any other shape value constrains nothing. -/
def matchPos (l s : Nat) : Bool :=
  !((s == 2 && l != 2) || (s == 1 && l != 1) || (s == 0 && l != 0))

/-- `matchPattern(linePattern, shapePattern)`. -/
def matchPattern (lp sp : List Nat) : Bool :=
  lp.length == sp.length && (List.zip lp sp).all fun q => matchPos q.1 q.2

/-- The `map(v => v === 2 ? 2 : v)` normalisation applied to each window
in `evaluateShapeInDirection` (it is the identity, which is proved below,
but it is kept in the translation for faithfulness). -/
def normalizeMap (l : List Nat) : List Nat :=
  l.map fun v => if v == 2 then 2 else v

/-- The 11-cell line extraction of `evaluateShapeInDirection`: offsets
`-5 .. 5`, own stone ↦ 1, opponent ↦ 2, empty ↦ 0, off-board ↦ 2. -/
def extractLine (b : Board) (x y dx dy : Int) (p opp : Nat) : List Nat :=
  (List.range 11).map fun (k : Nat) =>
    let i : Int := (k : Int) - 5
    let nx := x + dx * i
    let ny := y + dy * i
    if inR nx ny then
      (if b ny nx == p then 1 else if b ny nx == opp then 2 else 0)
    else 2

/-- The window `line.slice(i, i + n)`. -/
def slice (l : List Nat) (i n : Nat) : List Nat := (l.drop i).take n

/-- The inner entry loop of `evaluateShapeInDirection`: the score of the
first `SHAPE_SCORES` entry (in table order) whose template has length
`len` and matches the window under `matchPattern`; 0 when none does. -/
def firstScoreOfLen (len : Nat) (w : List Nat) : Nat :=
  match shapeScores.find? (fun e => e.2.length == len && matchPattern w e.2) with
  | some e => e.1
  | none => 0

/-- `evaluateShapeInDirection(board, x, y, dx, dy, player)`: slide over the
11-cell line; at each offset `i` score the 6-cell window (when it fits)
and the 5-cell window, each by its first matching table entry. -/
def evalShapeInDirection (b : Board) (x y dx dy : Int) (p : Nat) : Nat :=
  let opp := if p == 1 then 2 else 1
  let line := extractLine b x y dx dy p opp
  (List.range (line.length - 4)).foldl
    (fun s i =>
      let s6 := if i < line.length - 5
        then firstScoreOfLen 6 (normalizeMap (slice line i 6)) else 0
      let s5 := firstScoreOfLen 5 (normalizeMap (slice line i 5))
      s + s6 + s5)
    0

/-- The property claimed of the per-direction evaluation: each window
offset contributes the score of the first table entry of the window's
length whose template literally equals the window, the 6-windows and the
5-windows contributing independently. -/
def specDirScore (b : Board) (x y dx dy : Int) (p : Nat) : Nat :=
  let opp := if p == 1 then 2 else 1
  let line := extractLine b x y dx dy p opp
  let firstEq := fun (len : Nat) (w : List Nat) =>
    match shapeScores.find? (fun e => e.2.length == len && w == e.2) with
    | some e => e.1
    | none => 0
  ((List.range 6).map fun i => firstEq 6 (slice line i 6)).sum +
    ((List.range 7).map fun i => firstEq 5 (slice line i 5)).sum

/-- The pattern part of `evaluatePositionAdvanced`: the directional scores
summed over the four axes. -/
def patternTotal (b : Board) (x y : Int) (p : Nat) : Nat :=
  directions.foldl (fun s d => s + evalShapeInDirection b x y d.1 d.2 p) 0

/-- The squared Euclidean distance from `(x, y)` to the board center
`(7, 7)`. -/
def dist2 (x y : Int) : Int := (x - 7) ^ 2 + (y - 7) ^ 2

/-- The center-proximity bonus `Math.max(0, 100 - distanceToCenter * 5)`,
with `Math.sqrt` modelled as the real square root. -/
noncomputable def posBonus (x y : Int) : ℝ :=
  max 0 (100 - Real.sqrt ((dist2 x y : Int) : ℝ) * 5)

/-- `evaluatePositionAdvanced(board, x, y, player)`. -/
noncomputable def evalPosAdvanced (b : Board) (x y : Int) (p : Nat) : ℝ :=
  (patternTotal b x y p : ℝ) + posBonus x y

/-- The row-major cell enumeration of the double loops
`for (y ...) for (x ...)`, as `(y, x)` pairs. -/
def allCells : List (Int × Int) :=
  (List.range 225).map fun k => (((k / 15 : Nat) : Int), ((k % 15 : Nat) : Int))

/-- The winning/blocking cells found by `findWinningThreats`, stored as
`(x, y)` pairs as in the source. -/
structure WinLists where
  white : List (Int × Int)
  black : List (Int × Int)

/-- The scanning loop of `findWinningThreats`: at every empty cell the
white stone is tried first, then overwritten by a black stone, and the
cell is finally cleared; the board is threaded explicitly. -/
def winThreatsLoop : Board → List (Int × Int) → WinLists × Board
  | b, [] => (⟨[], []⟩, b)
  | b, (y, x) :: rest =>
    if b y x != EMPTY then winThreatsLoop b rest
    else
      let b1 := setCell b y x WHITE
      let w := checkWin b1 x y WHITE
      let b2 := setCell b1 y x BLACK
      let bl := checkWin b2 x y BLACK
      let b3 := setCell b2 y x EMPTY
      let (ls, b4) := winThreatsLoop b3 rest
      (⟨if w then (x, y) :: ls.white else ls.white,
        if bl then (x, y) :: ls.black else ls.black⟩, b4)

/-- `findWinningThreats(board)`. -/
def findWinningThreats (b : Board) : WinLists × Board :=
  winThreatsLoop b allCells

/-- The live-four / live-three cells reported by `detectThreats`. -/
structure ThreatLists where
  liveFour : List (Int × Int)
  liveThree : List (Int × Int)

/-- The 11-cell line extraction inside `detectThreats`: identical to the
one of `evaluateShapeInDirection` except that the queried cell itself is
encoded as 1 unconditionally. -/
def threatLine (b : Board) (x y dx dy : Int) (p opp : Nat) : List Nat :=
  (List.range 11).map fun (k : Nat) =>
    let i : Int := (k : Int) - 5
    let nx := x + dx * i
    let ny := y + dy * i
    if inR nx ny then
      (if nx == x && ny == y then 1
       else if b ny nx == p then 1
       else if b ny nx == opp then 2
       else 0)
    else 2

/-- Window scan used by `detectThreats`: some window of length
`pat.length` of the line equals `pat`. -/
def lineHas (line pat : List Nat) : Bool :=
  (List.range (line.length + 1 - pat.length)).any fun i =>
    slice line i pat.length == pat

/-- The per-direction classification of `detectThreats`, honouring the
`continue directionLoop` priority: live four first, then the solid live
three, then the two gapped live threes; at most one classification per
direction.  2 encodes a live four, 1 a live three, 0 nothing. -/
def dirThreatClass (line : List Nat) : Nat :=
  if lineHas line [0, 1, 1, 1, 1, 0] then 2
  else if lineHas line [0, 1, 1, 1, 0] then 1
  else if lineHas line [0, 1, 0, 1, 1, 0] || lineHas line [0, 1, 1, 0, 1, 0] then 1
  else 0

/-- Helper for `removeDuplicates`: drop elements already seen. -/
def dedupAux (seen : List (Int × Int)) : List (Int × Int) → List (Int × Int)
  | [] => []
  | c :: rest =>
    if c ∈ seen then dedupAux seen rest else c :: dedupAux (c :: seen) rest

/-- `removeDuplicates`: keep the first occurrence of each coordinate. -/
def dedup (l : List (Int × Int)) : List (Int × Int) := dedupAux [] l

/-- The scanning loop of `detectThreats`: at every empty cell, place the
player's stone, classify each of the four directions on the extracted
line, and clear the cell again; the board is threaded explicitly. -/
def detectThreatsLoop (p opp : Nat) : Board → List (Int × Int) → ThreatLists × Board
  | b, [] => (⟨[], []⟩, b)
  | b, (y, x) :: rest =>
    if b y x != EMPTY then detectThreatsLoop p opp b rest
    else
      let b1 := setCell b y x p
      let cls := directions.map fun d => dirThreatClass (threatLine b1 x y d.1 d.2 p opp)
      let b2 := setCell b1 y x EMPTY
      let (ls, b3) := detectThreatsLoop p opp b2 rest
      (⟨(cls.filter (· == 2)).map (fun _ => (x, y)) ++ ls.liveFour,
        (cls.filter (· == 1)).map (fun _ => (x, y)) ++ ls.liveThree⟩, b3)

/-- `detectThreats(board, player)`, with the final de-duplication. -/
def detectThreats (b : Board) (p : Nat) : ThreatLists × Board :=
  let opp := if p == BLACK then WHITE else BLACK
  let (ls, b1) := detectThreatsLoop p opp b allCells
  (⟨dedup ls.liveFour, dedup ls.liveThree⟩, b1)

/-- The inner threat loop of `canBlockMultipleThreats` for a candidate
blocking cell `(x, y)` (already holding the trial white stone): each
threat other than the candidate itself gets a trial black stone, is
tested with `checkWin`, and is then cleared; a still-winning threat stops
the loop.  Threats are `(x, y)` pairs. -/
def blockInner (x y : Int) : Board → List (Int × Int) → Bool × Board
  | b, [] => (true, b)
  | b, t :: rest =>
    if t.1 == x && t.2 == y then blockInner x y b rest
    else
      let b1 := setCell b t.2 t.1 BLACK
      let still := checkWin b1 t.1 t.2 BLACK
      let b2 := setCell b1 t.2 t.1 EMPTY
      if still then (false, b2) else blockInner x y b2 rest

/-- The candidate loop of `canBlockMultipleThreats`: every empty cell
gets a trial white stone, is tested against all threats, and is cleared;
the first fully-blocking cell returns true. -/
def canBlockLoop (threats : List (Int × Int)) : Board → List (Int × Int) → Bool × Board
  | b, [] => (false, b)
  | b, (y, x) :: rest =>
    if b y x != EMPTY then canBlockLoop threats b rest
    else
      let b1 := setCell b y x WHITE
      let (ok, b2) := blockInner x y b1 threats
      let b3 := setCell b2 y x EMPTY
      if ok then (true, b3) else canBlockLoop threats b3 rest

/-- `threats.every(t => t.x === first.x && t.y === first.y)`. -/
def allSameThreat (threats : List (Int × Int)) : Bool :=
  threats.all fun t => t == threats.headD (0, 0)

/-- `canBlockMultipleThreats(board, threats)`. -/
def canBlockMultipleThreats (b : Board) (threats : List (Int × Int)) : Bool × Board :=
  if threats.length ≤ 1 then (true, b)
  else
    let (found, b1) := canBlockLoop threats b allCells
    if found then (true, b1)
    else if decide (1 < threats.length) && allSameThreat threats then (true, b1)
    else (false, b1)

/-- `countStones(board)`. -/
def countStones (b : Board) : Nat × Nat :=
  allCells.foldl
    (fun s c =>
      if b c.1 c.2 == BLACK then (s.1 + 1, s.2)
      else if b c.1 c.2 == WHITE then (s.1, s.2 + 1)
      else s)
    (0, 0)

/-- The 3-step directional count of `detectFourInARow` (forward or
backward depending on the sign of `o`'s multiplier), unrolled like the
source loops that break at the first failure. -/
def fourCount (f : Int → Bool) : Nat :=
  if f 1 then if f 2 then if f 3 then 3 else 2 else 1 else 0

/-- The per-cell, per-direction test of `detectFourInARow`: the run
through the stone counts exactly 4 and both probe ends
(`x + 4*dx` forward, `x - dx` backward) are empty, in-range cells. -/
def fourHere (b : Board) (x y dx dy : Int) (p : Nat) : Bool :=
  let cnt := 1 + fourCount (fun o => stepOk b p x y dx dy o)
      + fourCount (fun o => stepOk b p x y dx dy (-o))
  cnt == 4 &&
    (inR (x + dx * 4) (y + dy * 4) && (b (y + dy * 4) (x + dx * 4) == EMPTY)) &&
    (inR (x - dx) (y - dy) && (b (y - dy) (x - dx) == EMPTY))

/-- `detectFourInARow(board)`: the `(black, white)` flags, accumulated
over every occupied cell and direction as in the source. -/
def detectFourInARow (b : Board) : Bool × Bool :=
  allCells.foldl
    (fun fl c =>
      let p := b c.1 c.2
      if p == EMPTY then fl
      else if directions.any fun d => fourHere b c.2 c.1 d.1 d.2 p then
        (if p == BLACK then (true, fl.2) else (fl.1, true))
      else fl)
    (false, false)

/-- An `if` on an arbitrary proposition (classically decided); used to
model JavaScript branches whose condition compares real-valued scores. -/
noncomputable def pif {α : Sort u} (c : Prop) (t e : α) : α :=
  @ite α c (Classical.propDecidable c) t e

/-- Stable insertion into a descending list: the new element (which comes
earlier in the original order) passes elements with strictly greater key
and stops before the first one that is not greater, modelling the stable
`sort((a, b) => b.score - a.score)`. -/
noncomputable def insertDesc {α : Type u} (key : α → ℝ) (a : α) : List α → List α
  | [] => [a]
  | x :: xs => pif (key a < key x) (x :: insertDesc key a xs) (a :: x :: xs)

/-- Stable descending sort by a real-valued key. -/
noncomputable def sortByDesc {α : Type u} (key : α → ℝ) (l : List α) : List α :=
  l.foldr (insertDesc key) []

/-- The scanning loop of `findThreats`: at every empty cell, score a
trial AI stone, overwrite with a trial human stone, score again and clear
the cell; cells passing the 10000/8000 thresholds are collected with
score `Math.max(aiScore * 1.5, humanScore)`. -/
noncomputable def findThreatsLoop (human ai : Nat) :
    Board → List (Int × Int) → List ((Int × Int) × ℝ) × Board
  | b, [] => ([], b)
  | b, (y, x) :: rest =>
    if b y x != EMPTY then findThreatsLoop human ai b rest
    else
      let b1 := setCell b y x ai
      let aiScore := evalPosAdvanced b1 x y ai
      let b2 := setCell b1 y x human
      let humanScore := evalPosAdvanced b2 x y human
      let b3 := setCell b2 y x EMPTY
      let (ts, b4) := findThreatsLoop human ai b3 rest
      (pif (10000 < aiScore ∨ 8000 < humanScore)
        (((x, y), max (aiScore * 1.5) humanScore) :: ts) ts, b4)

/-- `findThreats(board, humanPlayer, aiPlayer)`: scan, sort by score
descending, keep the coordinates. -/
noncomputable def findThreats (b : Board) (human ai : Nat) :
    List (Int × Int) × Board :=
  let (ts, b1) := findThreatsLoop human ai b allCells
  ((sortByDesc Prod.snd ts).map Prod.fst, b1)

/-- The candidate list of `calculateMediumMove`: empty cells with a
neighbour, in row-major order, as `(x, y)` pairs. -/
def candList (b : Board) : List (Int × Int) :=
  (allCells.filter fun c => b c.1 c.2 == EMPTY && hasNeighbor b c.2 c.1).map
    fun c => (c.2, c.1)

/-- The winning-move scan of `calculateMediumMove`: trial stone, win
test, rollback, early return at the first winning cell. -/
def firstWinLoop (p : Nat) : Board → List (Int × Int) → Option (Int × Int) × Board
  | b, [] => (none, b)
  | b, (y, x) :: rest =>
    if b y x == EMPTY then
      let b1 := setCell b y x p
      if checkWin b1 x y p then (some (x, y), setCell b1 y x EMPTY)
      else firstWinLoop p (setCell b1 y x EMPTY) rest
    else firstWinLoop p b rest

/-- The candidate-evaluation loop of `calculateMediumMove`.  The
accumulator is `none` while `bestMove` is null and `bestScore` is
`-Infinity` (so the first finite score always wins), and `some
(bestScore, bestMove)` afterwards. -/
noncomputable def evalLoop :
    Option (ℝ × (Int × Int)) → Board → List (Int × Int) → Option (ℝ × (Int × Int)) × Board
  | acc, b, [] => (acc, b)
  | acc, b, (x, y) :: rest =>
    let b1 := setCell b y x WHITE
    let selfScore := evalPosAdvanced b1 x y WHITE
    let b2 := setCell b1 y x BLACK
    let oppScore := evalPosAdvanced b2 x y BLACK
    let b3 := setCell b2 y x EMPTY
    let score := selfScore * 1.5 - oppScore * 1.2
    let acc1 := match acc with
      | none => some (score, (x, y))
      | some st => pif (st.1 < score) (some (score, (x, y))) (some st)
    evalLoop acc1 b3 rest

/-- `calculateMediumMove(board)`.  The parameter `r` models the
`Math.random()` draw of the final fallback (it indexes the candidate
list); every other step is deterministic. -/
noncomputable def calcMediumMove (b : Board) (r : Nat) : (Int × Int) × Board :=
  match firstWinLoop WHITE b allCells with
  | (some c, b1) => (c, b1)
  | (none, b1) =>
    match firstWinLoop BLACK b1 allCells with
    | (some c, b2) => (c, b2)
    | (none, b2) =>
      let (ts, b3) := findThreats b2 BLACK WHITE
      if ts.isEmpty = false then (ts.headD (0, 0), b3)
      else
        let cands := candList b3
        if cands.isEmpty then ((7, 7), b3)
        else
          match evalLoop none b3 cands with
          | (some st, b4) => (st.2, b4)
          | (none, b4) => (cands.getD (r % cands.length) (7, 7), b4)

/-- The scanning loop of `findBestMoves` (the justification strings of
the source are presentation only and are not modelled): win cells score
100000, blocking cells 90000, and neighbouring cells get the weighted
`whiteScore * 1.5 - blackScore * 1.2`. -/
noncomputable def bestMovesLoop : Board → List (Int × Int) → List ((Int × Int) × ℝ) × Board
  | b, [] => ([], b)
  | b, (y, x) :: rest =>
    if b y x != EMPTY then bestMovesLoop b rest
    else
      let b1 := setCell b y x WHITE
      if checkWin b1 x y WHITE then
        let (ms, b2) := bestMovesLoop (setCell b1 y x EMPTY) rest
        (((x, y), (100000 : ℝ)) :: ms, b2)
      else
        let b2 := setCell b1 y x BLACK
        if checkWin b2 x y BLACK then
          let (ms, b3) := bestMovesLoop (setCell b2 y x EMPTY) rest
          (((x, y), (90000 : ℝ)) :: ms, b3)
        else
          let b3 := setCell b2 y x EMPTY
          if hasNeighbor b3 x y = false then bestMovesLoop b3 rest
          else
            let b4 := setCell b3 y x WHITE
            let ws := evalPosAdvanced b4 x y WHITE
            let b5 := setCell b4 y x BLACK
            let bs := evalPosAdvanced b5 x y BLACK
            let b6 := setCell b5 y x EMPTY
            let (ms, b7) := bestMovesLoop b6 rest
            (((x, y), ws * 1.5 - bs * 1.2) :: ms, b7)

/-- `findBestMoves(board, count)`: scan, fall back to the center move on
an empty result, sort by score descending, take the first `count`. -/
noncomputable def findBestMoves (b : Board) (count : Nat) :
    List ((Int × Int) × ℝ) × Board :=
  let (ms, b1) := bestMovesLoop b allCells
  let ms1 := if ms.isEmpty then [((7, 7), (1 : ℝ))] else ms
  ((sortByDesc Prod.snd ms1).take count, b1)

/-- The `(whiteScore, blackScore)` aggregates of `evaluateBoardSituation`
(its analysis text and the territory counts feed only that text and are
not modelled). -/
noncomputable def boardSituationScores (b : Board) : ℝ × ℝ :=
  allCells.foldl
    (fun s c =>
      if b c.1 c.2 == WHITE then (s.1 + evalPosAdvanced b c.2 c.1 WHITE, s.2)
      else if b c.1 c.2 == BLACK then (s.1, s.2 + evalPosAdvanced b c.2 c.1 BLACK)
      else s)
    (0, 0)

/-- The three-valued urgency level of `analyzeBoard`. -/
inductive Urgency
  | normal
  | high
  | critical
deriving DecidableEq

/-- The outputs of `analyzeBoard` relevant to the specified behaviour:
the final urgency level, the surrender flag, and the board left behind
(the analysis text and the move reordering are presentation only). -/
structure Analysis where
  urgency : Urgency
  surrender : Prop
  final : Board

/-- `analyzeBoard(board)`, with every sub-computation performed in source
order on the explicitly threaded board.  The urgency level is a chain of
reassignments (later branches can overwrite earlier ones, exactly as in
the source); the surrender flag is the disjunction of its four setting
sites. -/
noncomputable def analyzeBoard (b : Board) : Analysis :=
  let stones := countStones b
  let total := stones.1 + stones.2
  let (wt, b1) := findWinningThreats b
  let four := detectFourInARow b1
  let s1 : Prop := four.1 = true
  let u1 : Urgency := if wt.white.isEmpty = false then .critical
    else if wt.black.isEmpty = false then .critical else .normal
  let s2 : Prop := wt.white = [] ∧ 2 ≤ wt.black.length ∧
    (canBlockMultipleThreats b1 wt.black).1 = false
  let b2 := if wt.white.isEmpty && decide (2 ≤ wt.black.length)
    then (canBlockMultipleThreats b1 wt.black).2 else b1
  let sit := boardSituationScores b2
  let s3 : Prop := (sit.1 < -50000 ∧ 20 < total) ∨ (80000 < sit.2 ∧ 15 < total)
  let (bt, b3) := detectThreats b2 BLACK
  let u2 : Urgency := if bt.liveFour.isEmpty = false then .critical
    else if 1 < bt.liveThree.length then .critical
    else if bt.liveThree.isEmpty = false then .high
    else u1
  let s4 : Prop := bt.liveFour = [] ∧ 1 < bt.liveThree.length ∧
    (canBlockMultipleThreats b3 bt.liveThree).1 = false
  let b4 := if bt.liveFour.isEmpty && decide (1 < bt.liveThree.length)
    then (canBlockMultipleThreats b3 bt.liveThree).2 else b3
  let (wt2, b5) := detectThreats b4 WHITE
  let u3 : Urgency := if wt2.liveFour.isEmpty = false then .critical
    else if 1 < wt2.liveThree.length then .critical
    else u2
  let (_, b6) := findBestMoves b5 5
  ⟨u3, s1 ∨ s2 ∨ s3 ∨ s4, b6⟩

/-! ### Pure value descriptions of the scanning loops

Each loop above restores the board before moving on, so its result is a
function of the board it started from.  The following non-threading
descriptions state those values; the equivalences are proved below. -/

/-- The value of the white-trial test of `findWinningThreats` at one cell. -/
def winCellW (b : Board) (c : Int × Int) : Bool :=
  b c.1 c.2 == EMPTY && checkWin (setCell b c.1 c.2 WHITE) c.2 c.1 WHITE

/-- The value of the black-trial test of `findWinningThreats` at one cell
(the trial black stone overwrites the trial white stone, so the tested
board is simply the one with a black stone at the cell). -/
def winCellB (b : Board) (c : Int × Int) : Bool :=
  b c.1 c.2 == EMPTY && checkWin (setCell b c.1 c.2 BLACK) c.2 c.1 BLACK

/-- The value of `findWinningThreats`, described without threading. -/
def pureWin (b : Board) : WinLists :=
  ⟨(allCells.filter (winCellW b)).map (fun c => (c.2, c.1)),
   (allCells.filter (winCellB b)).map (fun c => (c.2, c.1))⟩

/-- The per-direction threat classes of one `detectThreats` cell. -/
def cellThreatClasses (b : Board) (p opp : Nat) (y x : Int) : List Nat :=
  directions.map fun d => dirThreatClass (threatLine (setCell b y x p) x y d.1 d.2 p opp)

/-- The live-four entries one cell contributes to the `detectThreats`
scan (one per direction classified 2). -/
def fourContrib (b : Board) (p opp : Nat) (c : Int × Int) : List (Int × Int) :=
  if b c.1 c.2 == EMPTY then
    ((cellThreatClasses b p opp c.1 c.2).filter (· == 2)).map fun _ => (c.2, c.1)
  else []

/-- The live-three entries one cell contributes to the `detectThreats`
scan (one per direction classified 1). -/
def threeContrib (b : Board) (p opp : Nat) (c : Int × Int) : List (Int × Int) :=
  if b c.1 c.2 == EMPTY then
    ((cellThreatClasses b p opp c.1 c.2).filter (· == 1)).map fun _ => (c.2, c.1)
  else []

/-- The candidate test of `canBlockMultipleThreats` at `(y, x)` holding
the trial white stone: every threat is either the candidate itself or no
longer an immediate win for black. -/
def blocksAllAt (b : Board) (threats : List (Int × Int)) (y x : Int) : Bool :=
  threats.all fun t =>
    (t.1 == x && t.2 == y) ||
      !(checkWin (setCell (setCell b y x WHITE) t.2 t.1 BLACK) t.1 t.2 BLACK)

/-- The win-scan value of `calculateMediumMove` and the claimed forced
phase: the first cell in row-major order whose trial stone wins. -/
def rowMajorFirstWin (b : Board) (p : Nat) : Option (Int × Int) :=
  (allCells.find? fun c =>
      b c.1 c.2 == EMPTY && checkWin (setCell b c.1 c.2 p) c.2 c.1 p).map
    fun c => (c.2, c.1)

/-- The urgency level `analyzeBoard` ends with, as a function of the
scan values on the input board (proved equal to the model below). -/
def pureUrgency (b : Board) : Urgency :=
  let wt := pureWin b
  let bt := (detectThreats b BLACK).1
  let wt2 := (detectThreats b WHITE).1
  let u1 : Urgency := if wt.white.isEmpty = false then .critical
    else if wt.black.isEmpty = false then .critical else .normal
  let u2 : Urgency := if bt.liveFour.isEmpty = false then .critical
    else if 1 < bt.liveThree.length then .critical
    else if bt.liveThree.isEmpty = false then .high
    else u1
  if wt2.liveFour.isEmpty = false then .critical
  else if 1 < wt2.liveThree.length then .critical
  else u2

/-- The surrender flag `analyzeBoard` ends with, as a predicate on the
input board: the disjunction of its four setting sites. -/
def pureSurrender (b : Board) : Prop :=
  (detectFourInARow b).1 = true ∨
  ((pureWin b).white = [] ∧ 2 ≤ (pureWin b).black.length ∧
    (canBlockMultipleThreats b (pureWin b).black).1 = false) ∨
  (((boardSituationScores b).1 < -50000 ∧ 20 < (countStones b).1 + (countStones b).2) ∨
    (80000 < (boardSituationScores b).2 ∧ 15 < (countStones b).1 + (countStones b).2)) ∨
  ((detectThreats b BLACK).1.liveFour = [] ∧
    1 < (detectThreats b BLACK).1.liveThree.length ∧
    (canBlockMultipleThreats b (detectThreats b BLACK).1.liveThree).1 = false)

/-! ### Concrete boards used by witnesses and counterexamples -/

/-- The empty board. -/
def emptyB : Board := fun _ _ => 0

/-- Black stones at `(5,5) .. (8,5)` (the open-four scenario board). -/
def fourRowB : Board := fun y x =>
  if y = 5 ∧ (x = 5 ∨ x = 6 ∨ x = 7 ∨ x = 8) then 1 else 0

/-- Black live threes on two independent axes: `(2,2),(3,2),(4,2)`
horizontally and `(11,8),(11,9),(11,10)` vertically, both open at both
ends, with no cell blocking both. -/
def scenarioB : Board := fun y x =>
  if (y = 2 ∧ (x = 2 ∨ x = 3 ∨ x = 4)) ∨ (x = 11 ∧ (y = 8 ∨ y = 9 ∨ y = 10)) then 1
  else 0

/-! ## Board update algebra -/

theorem setCell_self (b : Board) (y x : Int) : setCell b y x (b y x) = b := by
  funext y0 x0
  by_cases h : y0 = y ∧ x0 = x
  · obtain ⟨h1, h2⟩ := h
    subst h1; subst h2
    simp [setCell]
  · simp [setCell, h]

theorem setCell_setCell (b : Board) (y x : Int) (v w : Nat) :
    setCell (setCell b y x v) y x w = setCell b y x w := by
  funext y0 x0
  by_cases h : y0 = y ∧ x0 = x
  · simp [setCell, h]
  · simp [setCell, h]

theorem setCell_restore (b : Board) (y x : Int) (v : Nat) (h : b y x = EMPTY) :
    setCell (setCell b y x v) y x EMPTY = b := by
  rw [setCell_setCell, ← h, setCell_self]

theorem setCell_read_ne (b : Board) (y x v y0 x0) (h : ¬(y0 = y ∧ x0 = x)) :
    setCell b y x v y0 x0 = b y0 x0 := by
  simp [setCell, h]

/-! ## The scanning loops compute their pure descriptions and restore
the board -/

theorem winThreatsLoop_eq (b : Board) (l : List (Int × Int)) :
    winThreatsLoop b l =
      (⟨(l.filter (winCellW b)).map (fun c => (c.2, c.1)),
        (l.filter (winCellB b)).map (fun c => (c.2, c.1))⟩, b) := by
  induction l with
  | nil => simp [winThreatsLoop]
  | cons c rest ih =>
    obtain ⟨y, x⟩ := c
    by_cases hc : b y x = EMPTY
    · have hbb : setCell (setCell b y x WHITE) y x BLACK = setCell b y x BLACK :=
        setCell_setCell ..
      have hres : setCell (setCell b y x BLACK) y x EMPTY = b :=
        setCell_restore b y x BLACK hc
      simp only [winThreatsLoop, hc, bne_self_eq_false, ite_false, hbb, hres, ih,
        List.filter_cons, winCellW, winCellB, beq_self_eq_true, Bool.true_and,
        List.map_cons]
      by_cases hw : checkWin (setCell b y x WHITE) x y WHITE
      · by_cases hb : checkWin (setCell b y x BLACK) x y BLACK <;>
          simp [hw, hb]
      · by_cases hb : checkWin (setCell b y x BLACK) x y BLACK <;>
          simp [hw, hb]
    · have hne : (b y x != EMPTY) = true := by
        simpa using hc
      simp only [winThreatsLoop, hne, ite_true, ih, List.filter_cons, winCellW, winCellB]
      have hbe : (b y x == EMPTY) = false := by simpa using hc
      simp [hbe]

theorem findWinningThreats_eq (b : Board) : findWinningThreats b = (pureWin b, b) := by
  rw [findWinningThreats, winThreatsLoop_eq]
  rfl

theorem detectThreatsLoop_eq (p opp : Nat) (b : Board) (l : List (Int × Int)) :
    detectThreatsLoop p opp b l =
      (⟨l.flatMap (fourContrib b p opp), l.flatMap (threeContrib b p opp)⟩, b) := by
  induction l with
  | nil => simp [detectThreatsLoop]
  | cons c rest ih =>
    obtain ⟨y, x⟩ := c
    by_cases hc : b y x = EMPTY
    · have hres : setCell (setCell b y x p) y x EMPTY = b := setCell_restore b y x p hc
      simp only [detectThreatsLoop, hc, bne_self_eq_false, ite_false, hres, ih,
        List.flatMap_cons]
      simp [fourContrib, threeContrib, cellThreatClasses, hc]
    · have hne : (b y x != EMPTY) = true := by simpa using hc
      simp only [detectThreatsLoop, hne, ite_true, ih, List.flatMap_cons]
      simp [fourContrib, threeContrib, hc]

theorem detectThreats_eq (b : Board) (p : Nat) :
    detectThreats b p =
      (⟨dedup (allCells.flatMap (fourContrib b p (if p == BLACK then WHITE else BLACK))),
        dedup (allCells.flatMap (threeContrib b p (if p == BLACK then WHITE else BLACK)))⟩,
        b) := by
  rw [detectThreats, detectThreatsLoop_eq]

theorem firstWinLoop_eq (p : Nat) (b : Board) (l : List (Int × Int)) :
    firstWinLoop p b l =
      ((l.find? fun c =>
          b c.1 c.2 == EMPTY && checkWin (setCell b c.1 c.2 p) c.2 c.1 p).map
        (fun c => (c.2, c.1)), b) := by
  induction l with
  | nil => simp [firstWinLoop]
  | cons c rest ih =>
    obtain ⟨y, x⟩ := c
    by_cases hc : b y x = EMPTY
    · have hres : setCell (setCell b y x p) y x EMPTY = b := setCell_restore b y x p hc
      by_cases hw : checkWin (setCell b y x p) x y p
      · simp only [firstWinLoop, hc, beq_self_eq_true, ite_true, hw, hres]
        rw [List.find?_cons_of_pos _ (by simp [hc, hw])]
        simp
      · simp only [firstWinLoop, hc, beq_self_eq_true, ite_true, hw, hres, ite_false, ih]
        rw [List.find?_cons_of_neg _ (by simp [hc, hw])]
        simp
    · have hbe : (b y x == EMPTY) = false := by simpa using hc
      simp only [firstWinLoop, hbe, Bool.false_eq_true, ite_false, ih]
      rw [List.find?_cons_of_neg _ (by simp [hbe])]

theorem blockInner_eq (x y : Int) (bb : Board) (ts : List (Int × Int))
    (h : ∀ t ∈ ts, (t.1 = x ∧ t.2 = y) ∨ bb t.2 t.1 = EMPTY) :
    blockInner x y bb ts =
      ((ts.all fun t =>
          (t.1 == x && t.2 == y) ||
            !(checkWin (setCell bb t.2 t.1 BLACK) t.1 t.2 BLACK)), bb) := by
  induction ts with
  | nil => simp [blockInner]
  | cons t rest ih =>
    have hrest := ih fun u hu => h u (List.mem_cons_of_mem _ hu)
    by_cases hskip : t.1 = x ∧ t.2 = y
    · have hg : (t.1 == x && t.2 == y) = true := by
        simp [hskip.1, hskip.2]
      simp [blockInner, hg, hrest, List.all_cons]
    · have hg : (t.1 == x && t.2 == y) = false := by
        rcases not_and_or.mp hskip with h1 | h1 <;> simp [h1]
      have hemp : bb t.2 t.1 = EMPTY :=
        (h t (List.mem_cons_self t rest)).resolve_left hskip
      have hres : setCell (setCell bb t.2 t.1 BLACK) t.2 t.1 EMPTY = bb :=
        setCell_restore _ _ _ _ hemp
      by_cases hwin : checkWin (setCell bb t.2 t.1 BLACK) t.1 t.2 BLACK
      · simp [blockInner, hg, hwin, hres, List.all_cons]
      · simp [blockInner, hg, hwin, hres, hrest, List.all_cons]

theorem canBlockLoop_eq (threats : List (Int × Int)) (b : Board)
    (l : List (Int × Int)) (h : ∀ t ∈ threats, b t.2 t.1 = EMPTY) :
    canBlockLoop threats b l =
      ((l.any fun c => b c.1 c.2 == EMPTY && blocksAllAt b threats c.1 c.2), b) := by
  induction l with
  | nil => simp [canBlockLoop]
  | cons c rest ih =>
    obtain ⟨y, x⟩ := c
    by_cases hc : b y x = EMPTY
    · have hinner := blockInner_eq x y (setCell b y x WHITE) threats
        (fun t ht => by
          by_cases hxy : t.1 = x ∧ t.2 = y
          · exact Or.inl hxy
          · refine Or.inr ?_
            rw [setCell_read_ne]
            · exact h t ht
            · intro hco
              exact hxy ⟨hco.2, hco.1⟩)
      have hres : setCell (setCell b y x WHITE) y x EMPTY = b :=
        setCell_restore b y x WHITE hc
      have hinner2 : blockInner x y (setCell b y x WHITE) threats =
          (blocksAllAt b threats y x, setCell b y x WHITE) := by
        rw [hinner, blocksAllAt]
      simp only [canBlockLoop, hc, bne_self_eq_false, ite_false, hinner2, hres, ih,
        List.any_cons, beq_self_eq_true, Bool.true_and]
      by_cases hok : blocksAllAt b threats y x
      · simp [hok]
      · simp [hok]
    · have hbe : (b y x == EMPTY) = false := by simpa using hc
      have hne : (b y x != EMPTY) = true := by simpa using hc
      simp [canBlockLoop, hne, ih, List.any_cons, hbe]

theorem canBlock_eq (b : Board) (threats : List (Int × Int))
    (h : ∀ t ∈ threats, b t.2 t.1 = EMPTY) :
    canBlockMultipleThreats b threats =
      (if threats.length ≤ 1 then true
       else if allCells.any (fun c => b c.1 c.2 == EMPTY && blocksAllAt b threats c.1 c.2)
       then true
       else if decide (1 < threats.length) && allSameThreat threats then true
       else false, b) := by
  rw [canBlockMultipleThreats]
  by_cases hlen : threats.length ≤ 1
  · simp [hlen]
  · rw [canBlockLoop_eq threats b allCells h]
    by_cases hany :
        allCells.any fun c => b c.1 c.2 == EMPTY && blocksAllAt b threats c.1 c.2
    · simp [hlen, hany]
    · simp only [hlen, ite_false, hany]
      by_cases hsame : (decide (1 < threats.length) && allSameThreat threats) = true
      · simp [hsame, hany]
      · simp [hsame, hany]

theorem findThreatsLoop_snd (human ai : Nat) (b : Board) (l : List (Int × Int)) :
    (findThreatsLoop human ai b l).2 = b := by
  induction l with
  | nil => simp [findThreatsLoop]
  | cons c rest ih =>
    obtain ⟨y, x⟩ := c
    by_cases hc : b y x = EMPTY
    · have h1 : setCell (setCell b y x ai) y x human = setCell b y x human :=
        setCell_setCell ..
      have hres : setCell (setCell b y x human) y x EMPTY = b :=
        setCell_restore b y x human hc
      simp only [findThreatsLoop, hc, bne_self_eq_false, ite_false, h1, hres]
      rcases hrec : findThreatsLoop human ai b rest with ⟨ts, b4⟩
      have hb4 : b4 = b := by
        have := ih
        rw [hrec] at this
        exact this
      simp [hb4]
    · have hne : (b y x != EMPTY) = true := by simpa using hc
      simp [findThreatsLoop, hne, ih]

theorem evalLoop_snd (acc : Option (ℝ × (Int × Int))) (b : Board)
    (l : List (Int × Int)) (h : ∀ c ∈ l, b c.2 c.1 = EMPTY) :
    (evalLoop acc b l).2 = b := by
  induction l generalizing acc with
  | nil => simp [evalLoop]
  | cons c rest ih =>
    obtain ⟨x, y⟩ := c
    have hc : b y x = EMPTY := h (x, y) (List.mem_cons_self ..)
    have h1 : setCell (setCell b y x WHITE) y x BLACK = setCell b y x BLACK :=
      setCell_setCell ..
    have hres : setCell (setCell b y x BLACK) y x EMPTY = b :=
      setCell_restore b y x BLACK hc
    simp only [evalLoop, h1, hres]
    exact ih _ fun u hu => h u (List.mem_cons_of_mem _ hu)

theorem bestMovesLoop_snd (b : Board) (l : List (Int × Int)) :
    (bestMovesLoop b l).2 = b := by
  induction l with
  | nil => simp [bestMovesLoop]
  | cons c rest ih =>
    obtain ⟨y, x⟩ := c
    by_cases hc : b y x = EMPTY
    · have hresW : setCell (setCell b y x WHITE) y x EMPTY = b :=
        setCell_restore b y x WHITE hc
      have h12 : setCell (setCell b y x WHITE) y x BLACK = setCell b y x BLACK :=
        setCell_setCell ..
      have hresB : setCell (setCell b y x BLACK) y x EMPTY = b :=
        setCell_restore b y x BLACK hc
      simp only [bestMovesLoop, hc, bne_self_eq_false, ite_false, hresW, h12, hresB]
      by_cases hw : checkWin (setCell b y x WHITE) x y WHITE
      · simp only [hw, ite_true]
        rcases hrec : bestMovesLoop b rest with ⟨ms, b2⟩
        have hb2 := ih
        rw [hrec] at hb2
        simpa using hb2
      · simp only [hw, ite_false]
        by_cases hb : checkWin (setCell b y x BLACK) x y BLACK
        · simp only [hb, ite_true]
          rcases hrec : bestMovesLoop b rest with ⟨ms, b2⟩
          have hb2 := ih
          rw [hrec] at hb2
          simpa using hb2
        · simp only [hb, ite_false]
          by_cases hn : hasNeighbor b x y = false
          · simp [hn, ih]
          · simp only [hn, ite_false, h12, hresB]
            rcases hrec : bestMovesLoop b rest with ⟨ms, b2⟩
            have hb2 := ih
            rw [hrec] at hb2
            simpa using hb2
    · have hne : (b y x != EMPTY) = true := by simpa using hc
      simp [bestMovesLoop, hne, ih]

theorem findBestMoves_snd (b : Board) (n : Nat) : (findBestMoves b n).2 = b := by
  rw [findBestMoves]
  rcases hrec : bestMovesLoop b allCells with ⟨ms, b1⟩
  have hb1 := bestMovesLoop_snd b allCells
  rw [hrec] at hb1
  simpa using hb1

/-! ## De-duplication and membership lemmas -/

theorem mem_dedupAux (seen l : List (Int × Int)) (a : Int × Int) :
    a ∈ dedupAux seen l ↔ a ∈ l ∧ a ∉ seen := by
  induction l generalizing seen with
  | nil => simp [dedupAux]
  | cons c rest ih =>
    by_cases hcs : c ∈ seen
    · rw [dedupAux, if_pos hcs, ih]
      constructor
      · rintro ⟨hm, hs⟩
        exact ⟨List.mem_cons_of_mem _ hm, hs⟩
      · rintro ⟨hm, hs⟩
        rcases List.mem_cons.mp hm with rfl | hm2
        · exact absurd hcs hs
        · exact ⟨hm2, hs⟩
    · rw [dedupAux, if_neg hcs]
      simp only [List.mem_cons, ih]
      constructor
      · rintro (rfl | ⟨hm, hs⟩)
        · exact ⟨Or.inl rfl, hcs⟩
        · exact ⟨Or.inr hm, fun hx => hs (Or.inr hx)⟩
      · rintro ⟨rfl | hm, hs⟩
        · exact Or.inl rfl
        · by_cases hac : a = c
          · exact Or.inl hac
          · exact Or.inr ⟨hm, by simp [List.mem_cons, hac, hs]⟩

theorem mem_dedup (l : List (Int × Int)) (a : Int × Int) :
    a ∈ dedup l ↔ a ∈ l := by
  simp [dedup, mem_dedupAux]

theorem one_lt_length_of_two (l : List (Int × Int)) (a c : Int × Int)
    (ha : a ∈ l) (hc : c ∈ l) (hne : a ≠ c) : 1 < l.length := by
  cases l with
  | nil => simp at ha
  | cons d rest =>
    simp only [List.length_cons]
    rcases List.mem_cons.mp ha with rfl | ha2
    · rcases List.mem_cons.mp hc with rfl | hc2
      · exact absurd rfl hne
      · have := List.length_pos_of_mem hc2
        omega
    · have := List.length_pos_of_mem ha2
      omega

theorem mem_allCells (y x : Int) :
    (y, x) ∈ allCells ↔ 0 ≤ y ∧ y < 15 ∧ 0 ≤ x ∧ x < 15 := by
  constructor
  · intro h
    simp only [allCells, List.mem_map, List.mem_range] at h
    obtain ⟨k, hk, he⟩ := h
    obtain ⟨hy, hx⟩ := Prod.mk.injEq .. ▸ he
    have hdiv : k / 15 < 15 := by omega
    have hmod : k % 15 < 15 := by omega
    refine ⟨?_, ?_, ?_, ?_⟩ <;> omega
  · rintro ⟨h1, h2, h3, h4⟩
    simp only [allCells, List.mem_map, List.mem_range]
    refine ⟨y.toNat * 15 + x.toNat, by omega, ?_⟩
    have hdiv : (y.toNat * 15 + x.toNat) / 15 = y.toNat := by omega
    have hmod : (y.toNat * 15 + x.toNat) % 15 = x.toNat := by omega
    rw [hdiv, hmod]
    simp only [Prod.mk.injEq]
    constructor <;> omega

theorem fourContrib_mem (b : Board) (p opp : Nat) (c t : Int × Int)
    (h : t ∈ fourContrib b p opp c) : t = (c.2, c.1) ∧ b c.1 c.2 = EMPTY := by
  rw [fourContrib] at h
  by_cases hc : (b c.1 c.2 == EMPTY) = true
  · rw [if_pos hc] at h
    rcases List.mem_map.mp h with ⟨u, _, rfl⟩
    exact ⟨rfl, by simpa using hc⟩
  · rw [if_neg hc] at h
    simp at h

theorem threeContrib_mem (b : Board) (p opp : Nat) (c t : Int × Int)
    (h : t ∈ threeContrib b p opp c) : t = (c.2, c.1) ∧ b c.1 c.2 = EMPTY := by
  rw [threeContrib] at h
  by_cases hc : (b c.1 c.2 == EMPTY) = true
  · rw [if_pos hc] at h
    rcases List.mem_map.mp h with ⟨u, _, rfl⟩
    exact ⟨rfl, by simpa using hc⟩
  · rw [if_neg hc] at h
    simp at h

theorem pureWin_black_empty (b : Board) :
    ∀ t ∈ (pureWin b).black, b t.2 t.1 = EMPTY := by
  intro t ht
  simp only [pureWin, List.mem_map, List.mem_filter] at ht
  obtain ⟨c, ⟨_, hcell⟩, rfl⟩ := ht
  simp only [winCellB, Bool.and_eq_true, beq_iff_eq] at hcell
  exact hcell.1

theorem detectThreats_liveThree_empty (b : Board) (p : Nat) :
    ∀ t ∈ (detectThreats b p).1.liveThree, b t.2 t.1 = EMPTY := by
  intro t ht
  rw [detectThreats_eq] at ht
  simp only [mem_dedup, List.mem_flatMap] at ht
  obtain ⟨c, _, hmem⟩ := ht
  obtain ⟨rfl, hemp⟩ := threeContrib_mem _ _ _ _ _ hmem
  exact hemp

theorem canBlock_snd (b : Board) (ts : List (Int × Int))
    (h : ∀ t ∈ ts, b t.2 t.1 = EMPTY) : (canBlockMultipleThreats b ts).2 = b := by
  rw [canBlock_eq b ts h]

/-! ## `analyzeBoard` computes its pure description and restores the
board -/

set_option maxHeartbeats 2000000 in
theorem analyzeBoard_spec (b : Board) :
    analyzeBoard b = ⟨pureUrgency b, pureSurrender b, b⟩ := by
  have hwb : ∀ t ∈ (pureWin b).black, b t.2 t.1 = EMPTY := pureWin_black_empty b
  have hbt : ∀ t ∈ (detectThreats b BLACK).1.liveThree, b t.2 t.1 = EMPTY :=
    detectThreats_liveThree_empty b BLACK
  have hcb1 : (canBlockMultipleThreats b (pureWin b).black).2 = b :=
    canBlock_snd _ _ hwb
  have hcb2 :
      (canBlockMultipleThreats b (detectThreats b BLACK).1.liveThree).2 = b :=
    canBlock_snd _ _ hbt
  rcases hfb : findBestMoves b 5 with ⟨ms, b6⟩
  have hb6 : b6 = b := by
    have h5 := findBestMoves_snd b 5
    rw [hfb] at h5
    exact h5
  subst hb6
  rw [detectThreats_eq] at hcb2
  simp only [analyzeBoard, pureUrgency, pureSurrender, findWinningThreats_eq,
    detectThreats_eq, hcb1, hcb2, ite_self, hfb]

theorem analyzeBoard_final (b : Board) : (analyzeBoard b).final = b := by
  rw [analyzeBoard_spec]

theorem analyzeBoard_urgency (b : Board) :
    (analyzeBoard b).urgency = pureUrgency b := by
  rw [analyzeBoard_spec]

theorem analyzeBoard_surrender (b : Board) :
    (analyzeBoard b).surrender ↔ pureSurrender b := by
  rw [analyzeBoard_spec]

theorem pureUrgency_critical (b : Board)
    (h : (detectThreats b BLACK).1.liveFour ≠ [] ∨
      1 < (detectThreats b BLACK).1.liveThree.length ∨
      (detectThreats b WHITE).1.liveFour ≠ [] ∨
      1 < (detectThreats b WHITE).1.liveThree.length) :
    pureUrgency b = .critical := by
  rw [pureUrgency]
  by_cases hw4 : (detectThreats b WHITE).1.liveFour.isEmpty = false
  · simp [hw4]
  · by_cases hw3 : 1 < (detectThreats b WHITE).1.liveThree.length
    · simp [hw4, hw3]
    · rcases h with h | h | h | h
      · have hb4 : (detectThreats b BLACK).1.liveFour.isEmpty = false := by
          simpa [List.isEmpty_iff] using h
        simp [hw4, hw3, hb4]
      · simp [hw4, hw3, h]
      · exact absurd (by simpa [List.isEmpty_iff] using h) hw4
      · exact absurd h hw3

/-- Placing a stone of another colour on an empty cell does not change
which cells the win detector counts for `p`. -/
theorem checkWin_congr (b1 b2 : Board) (x y : Int) (p : Nat)
    (h : ∀ y0 x0, (b1 y0 x0 == p) = (b2 y0 x0 == p)) :
    checkWin b1 x y p = checkWin b2 x y p := by
  simp only [checkWin, lineCount, stepOk, h]

theorem pureWin_black_nil (b : Board) (h : (pureWin b).black = []) :
    ∀ c ∈ allCells, winCellB b c = false := by
  intro c hc
  by_contra hne
  have hmem : (c.2, c.1) ∈ (pureWin b).black := by
    simp only [pureWin, List.mem_map]
    exact ⟨c, List.mem_filter.mpr ⟨hc, by simpa using hne⟩, rfl⟩
  rw [h] at hmem
  simp at hmem

theorem detectThreats_liveThree_cell (b : Board) (p : Nat) :
    ∀ t ∈ (detectThreats b p).1.liveThree,
      (t.2, t.1) ∈ allCells ∧ b t.2 t.1 = EMPTY := by
  intro t ht
  rw [detectThreats_eq] at ht
  simp only [mem_dedup, List.mem_flatMap] at ht
  obtain ⟨c, hcm, hmem⟩ := ht
  obtain ⟨rfl, hemp⟩ := threeContrib_mem _ _ _ _ _ hmem
  exact ⟨hcm, hemp⟩

/-- When black has no immediate winning cell at all, the multi-threat
resolver reports every threat list (of empty, on-board cells) blockable:
the first empty candidate already passes, because no single black stone
at a threat completes five. -/
theorem canBlock_true_of_no_win (b : Board) (threats : List (Int × Int))
    (hcells : ∀ t ∈ threats, (t.2, t.1) ∈ allCells ∧ b t.2 t.1 = EMPTY)
    (hnil : (pureWin b).black = []) (h00 : b 0 0 = EMPTY) :
    (canBlockMultipleThreats b threats).1 = true := by
  have hemp : ∀ t ∈ threats, b t.2 t.1 = EMPTY := fun t ht => (hcells t ht).2
  rw [canBlock_eq b threats hemp]
  by_cases hlen : threats.length ≤ 1
  · simp [hlen]
  · have hblock : blocksAllAt b threats 0 0 = true := by
      rw [blocksAllAt, List.all_eq_true]
      intro t ht
      by_cases hx : t = (0, 0)
      · simp [hx]
      · have hg : (t.1 == (0 : Int) && t.2 == (0 : Int)) = false := by
          rcases not_and_or.mp (fun hc : t.1 = 0 ∧ t.2 = 0 =>
            hx (Prod.ext hc.1 hc.2)) with h1 | h1 <;> simp [h1]
        have hcw0 : checkWin (setCell b t.2 t.1 BLACK) t.1 t.2 BLACK = false := by
          have hw := pureWin_black_nil b hnil (t.2, t.1) (hcells t ht).1
          rw [winCellB] at hw
          simpa [(hcells t ht).2] using hw
        have hcg :
            checkWin (setCell (setCell b 0 0 WHITE) t.2 t.1 BLACK) t.1 t.2 BLACK =
              checkWin (setCell b t.2 t.1 BLACK) t.1 t.2 BLACK := by
          apply checkWin_congr
          intro y0 x0
          by_cases hyt : y0 = t.2 ∧ x0 = t.1
          · simp [setCell, hyt]
          · rw [setCell_read_ne _ _ _ _ _ _ hyt, setCell_read_ne _ _ _ _ _ _ hyt]
            by_cases h0 : y0 = 0 ∧ x0 = 0
            · obtain ⟨rfl, rfl⟩ := h0
              simp [setCell, h00]
            · rw [setCell_read_ne _ _ _ _ _ _ h0]
        simp [hg, hcg, hcw0]
    have hany :
        (allCells.any fun c => b c.1 c.2 == EMPTY && blocksAllAt b threats c.1 c.2) =
          true := by
      rw [List.any_eq_true]
      refine ⟨(0, 0), by decide, ?_⟩
      simp [h00, hblock]
    simp [hlen, hany]

/-! ## Concrete facts about the double-live-three scenario board -/

theorem scen_four_mem : (1, 2) ∈ (detectThreats scenarioB BLACK).1.liveFour := by
  rw [detectThreats_eq, mem_dedup]
  exact List.mem_flatMap.mpr ⟨(2, 1), by decide, by decide⟩

theorem scen_three_mem1 : (0, 2) ∈ (detectThreats scenarioB BLACK).1.liveThree := by
  rw [detectThreats_eq, mem_dedup]
  exact List.mem_flatMap.mpr ⟨(2, 0), by decide, by decide⟩

theorem scen_three_mem2 : (6, 2) ∈ (detectThreats scenarioB BLACK).1.liveThree := by
  rw [detectThreats_eq, mem_dedup]
  exact List.mem_flatMap.mpr ⟨(2, 6), by decide, by decide⟩

theorem scen_three_len : 1 < (detectThreats scenarioB BLACK).1.liveThree.length :=
  one_lt_length_of_two _ _ _ scen_three_mem1 scen_three_mem2 (by decide)

theorem scen_win_black_nil : (pureWin scenarioB).black = [] := by decide

theorem scen_canBlock_true :
    (canBlockMultipleThreats scenarioB
      (detectThreats scenarioB BLACK).1.liveThree).1 = true :=
  canBlock_true_of_no_win scenarioB _
    (detectThreats_liveThree_cell scenarioB BLACK) scen_win_black_nil (by decide)

theorem scen_not_surrender : ¬ pureSurrender scenarioB := by
  rw [pureSurrender]
  rintro (h1 | ⟨hw, hlen, hcb⟩ | h3 | ⟨h4, _, _⟩)
  · have : (detectFourInARow scenarioB).1 = false := by decide
    rw [this] at h1
    exact Bool.false_ne_true h1
  · rw [scen_win_black_nil] at hlen
    simp at hlen
  · have ht : (countStones scenarioB).1 + (countStones scenarioB).2 = 6 := by decide
    rcases h3 with ⟨_, h20⟩ | ⟨_, h15⟩ <;> omega
  · have := scen_four_mem
    rw [h4] at this
    simp at this

theorem scen_urgency : pureUrgency scenarioB = .critical :=
  pureUrgency_critical scenarioB (Or.inl (List.ne_nil_of_mem scen_four_mem))

/-! ## `calculateMediumMove`: frame, forced phases, determinism -/

theorem findThreats_snd (b : Board) (human ai : Nat) :
    (findThreats b human ai).2 = b := by
  rw [findThreats]
  rcases h : findThreatsLoop human ai b allCells with ⟨ts, b1⟩
  have hb := findThreatsLoop_snd human ai b allCells
  rw [h] at hb
  simpa using hb

theorem candList_empty (b : Board) : ∀ c ∈ candList b, b c.2 c.1 = EMPTY := by
  intro c hc
  simp only [candList, List.mem_map, List.mem_filter, Bool.and_eq_true,
    beq_iff_eq] at hc
  obtain ⟨u, ⟨_, hu, _⟩, rfl⟩ := hc
  exact hu

theorem pif_cases {α : Sort u} (c : Prop) (t e : α) : pif c t e = t ∨ pif c t e = e := by
  rw [pif]
  split
  · exact Or.inl rfl
  · exact Or.inr rfl

theorem pif_isSome {β : Type u} (c : Prop) (a b' : β) :
    (pif c (some a) (some b')).isSome = true := by
  rcases pif_cases c (some a) (some b') with hp | hp <;> simp [hp]

theorem evalLoop_isSome (l : List (Int × Int)) (acc : Option (ℝ × (Int × Int)))
    (b : Board) (h : acc.isSome ∨ l ≠ []) : (evalLoop acc b l).1.isSome := by
  induction l generalizing acc b with
  | nil =>
    rcases h with h | h
    · simpa [evalLoop] using h
    · exact absurd rfl h
  | cons c rest ih =>
    obtain ⟨x, y⟩ := c
    simp only [evalLoop]
    apply ih
    left
    rcases acc with _ | st
    · simp
    · exact pif_isSome _ _ _

theorem calcMediumMove_spec (b : Board) (r : Nat) :
    calcMediumMove b r =
      (match rowMajorFirstWin b WHITE with
       | some c => c
       | none =>
         match rowMajorFirstWin b BLACK with
         | some c => c
         | none =>
           let ts := (findThreats b BLACK WHITE).1
           if ts.isEmpty = false then ts.headD (0, 0)
           else
             let cands := candList b
             if cands.isEmpty then (7, 7)
             else
               match (evalLoop none b cands).1 with
               | some st => st.2
               | none => cands.getD (r % cands.length) (7, 7), b) := by
  rw [calcMediumMove, rowMajorFirstWin, rowMajorFirstWin, firstWinLoop_eq]
  cases hW : allCells.find? fun c =>
      b c.1 c.2 == EMPTY && checkWin (setCell b c.1 c.2 WHITE) c.2 c.1 WHITE with
  | some c => simp [hW]
  | none =>
    simp only [hW, Option.map_none']
    rw [firstWinLoop_eq]
    cases hB : allCells.find? fun c =>
        b c.1 c.2 == EMPTY && checkWin (setCell b c.1 c.2 BLACK) c.2 c.1 BLACK with
    | some c => simp [hB]
    | none =>
      simp only [hB, Option.map_none']
      rcases hT : findThreats b BLACK WHITE with ⟨ts, b3⟩
      have hb3 : b3 = b := by
        have h0 := findThreats_snd b BLACK WHITE
        rw [hT] at h0
        exact h0
      rw [hb3]
      by_cases hempty : ts.isEmpty = false
      · simp [hempty]
      · by_cases hcand : (candList b).isEmpty
        · simp [hcand, hempty]
        · rcases hE : evalLoop none b (candList b) with ⟨acc, b4⟩
          have hb4 : b4 = b := by
            have h0 := evalLoop_snd none b (candList b) (candList_empty b)
            rw [hE] at h0
            exact h0
          rw [hb4]
          cases acc with
          | some st => simp [hempty, hcand]
          | none => simp [hempty, hcand]

theorem calcMediumMove_snd (b : Board) (r : Nat) : (calcMediumMove b r).2 = b := by
  rw [calcMediumMove_spec]

theorem calcMediumMove_rand_free (b : Board) (r r' : Nat) :
    calcMediumMove b r = calcMediumMove b r' := by
  rw [calcMediumMove_spec b r, calcMediumMove_spec b r']
  cases hW : rowMajorFirstWin b WHITE with
  | some c => simp [hW]
  | none =>
    simp only [hW]
    cases hB : rowMajorFirstWin b BLACK with
    | some c => simp [hB]
    | none =>
      simp only [hB]
      by_cases hempty : (findThreats b BLACK WHITE).1.isEmpty = false
      · simp [hempty]
      · by_cases hcand : (candList b).isEmpty
        · simp [hempty, hcand]
        · cases hacc : (evalLoop none b (candList b)).1 with
          | some st => simp [hempty, hcand, hacc]
          | none =>
            exfalso
            have hne : candList b ≠ [] := by
              intro h0
              rw [h0] at hcand
              simp at hcand
            have hsome := evalLoop_isSome (candList b) none b (Or.inr hne)
            rw [hacc] at hsome
            simp at hsome

theorem calcMediumMove_white_win (b : Board) (r : Nat) (c : Int × Int)
    (h : rowMajorFirstWin b WHITE = some c) : (calcMediumMove b r).1 = c := by
  rw [calcMediumMove_spec]
  simp [h]

theorem calcMediumMove_block (b : Board) (r : Nat) (c : Int × Int)
    (h1 : rowMajorFirstWin b WHITE = none)
    (h2 : rowMajorFirstWin b BLACK = some c) : (calcMediumMove b r).1 = c := by
  rw [calcMediumMove_spec]
  simp [h1, h2]

theorem calcMediumMove_center (b : Board) (r : Nat)
    (h1 : rowMajorFirstWin b WHITE = none) (h2 : rowMajorFirstWin b BLACK = none)
    (h3 : (findThreats b BLACK WHITE).1 = []) (h4 : candList b = []) :
    (calcMediumMove b r).1 = (7, 7) := by
  rw [calcMediumMove_spec]
  simp [h1, h2, h3, h4]

/-! ## Pattern matching is positional equality on the table templates -/

theorem matchPos_eq (a s : Nat) (hs : s ≤ 2) : matchPos a s = (a == s) := by
  interval_cases s <;> simp [matchPos, bne, Bool.not_not]

theorem matchPattern_eq (lp sp : List Nat) (hb : ∀ v ∈ sp, v ≤ 2) :
    matchPattern lp sp = (lp == sp) := by
  induction sp generalizing lp with
  | nil =>
    cases lp with
    | nil => rfl
    | cons a l => simp [matchPattern]
  | cons s sp ih =>
    cases lp with
    | nil => simp [matchPattern]
    | cons a l =>
      have hs : s ≤ 2 := hb s (List.mem_cons_self ..)
      have hrest : ∀ v ∈ sp, v ≤ 2 := fun v hv => hb v (List.mem_cons_of_mem _ hv)
      have hih := ih l hrest
      rw [matchPattern] at hih ⊢
      simp only [List.zip_cons_cons, List.all_cons, List.length_cons,
        matchPos_eq a s hs]
      by_cases has : a = s
      · subst has
        simpa using hih
      · have hab : (a == s) = false := by simpa using has
        simp [hab]

theorem shapeScores_bounded :
    ∀ e ∈ shapeScores, ∀ v ∈ e.2, v ≤ 2 := by decide

theorem shapeScores_two_ones : ∀ e ∈ shapeScores, 2 ≤ e.2.count 1 := by decide

theorem normalizeMap_id (l : List Nat) : normalizeMap l = l := by
  induction l with
  | nil => rfl
  | cons a rest ih =>
    rw [normalizeMap, List.map_cons]
    rw [normalizeMap] at ih
    rw [ih]
    by_cases ha : a = 2 <;> simp [ha]

theorem firstScore_zero_of_count1 (len : Nat) (w : List Nat)
    (h : w.count 1 ≤ 1) : firstScoreOfLen len w = 0 := by
  rw [firstScoreOfLen]
  have hf : shapeScores.find? (fun e => e.2.length == len && matchPattern w e.2) =
      none := by
    rw [List.find?_eq_none]
    intro e he
    simp only [Bool.and_eq_true, beq_iff_eq, not_and]
    intro _ hmp
    have hbd := shapeScores_bounded e he
    rw [matchPattern_eq w e.2 hbd] at hmp
    have hw : w = e.2 := by simpa using hmp
    have h2 := shapeScores_two_ones e he
    rw [hw] at h
    omega
  rw [hf]

theorem count_le_one_of_single (g : Nat → Nat) (h : ∀ k, k ≠ 5 → g k ≠ 1) :
    (((List.range 11).map g).count 1) ≤ 1 := by
  have hr : List.range 11 = [0, 1, 2, 3, 4, 5, 6, 7, 8, 9, 10] := rfl
  rw [hr]
  have h0 := h 0 (by decide)
  have h1 := h 1 (by decide)
  have h2 := h 2 (by decide)
  have h3 := h 3 (by decide)
  have h4 := h 4 (by decide)
  have h6 := h 6 (by decide)
  have h7 := h 7 (by decide)
  have h8 := h 8 (by decide)
  have h9 := h 9 (by decide)
  have h10 := h 10 (by decide)
  simp only [List.map_cons, List.map_nil, List.count_cons, List.count_nil,
    beq_iff_eq]
  simp [h0, h1, h2, h3, h4, h6, h7, h8, h9, h10]
  split <;> omega

/-! ## On the empty board no trial stone passes the threat thresholds -/

theorem pif_pos {α : Sort u} {c : Prop} (h : c) (t e : α) : pif c t e = t := by
  rw [pif]
  exact if_pos h

theorem pif_neg {α : Sort u} {c : Prop} (h : ¬c) (t e : α) : pif c t e = e := by
  rw [pif]
  exact if_neg h

theorem extractLine_single (y x dx dy : Int) (p : Nat) (hp : p = 1 ∨ p = 2)
    (hd : ∀ k : Nat, k ≠ 5 → ¬(dx * ((k : Int) - 5) = 0 ∧ dy * ((k : Int) - 5) = 0)) :
    (extractLine (setCell emptyB y x p) x y dx dy p
      (if p == 1 then 2 else 1)).count 1 ≤ 1 := by
  rw [extractLine]
  apply count_le_one_of_single
  intro k hk
  have hcell : ¬(y + dy * ((k : Int) - 5) = y ∧ x + dx * ((k : Int) - 5) = x) := by
    intro ⟨h1, h2⟩
    exact hd k hk ⟨by linarith, by linarith⟩
  have hread :
      setCell emptyB y x p (y + dy * ((k : Int) - 5)) (x + dx * ((k : Int) - 5)) = 0 := by
    rw [setCell_read_ne _ _ _ _ _ _ hcell]
    rfl
  simp only [hread]
  have hp0 : (0 == p) = false := by rcases hp with rfl | rfl <;> rfl
  by_cases hr : inR (x + dx * ((k : Int) - 5)) (y + dy * ((k : Int) - 5))
  · simp [hr, hp0]
    split <;> simp
  · simp [hr]

theorem evalShape_single (y x dx dy : Int) (p : Nat) (hp : p = 1 ∨ p = 2)
    (hd : ∀ k : Nat, k ≠ 5 → ¬(dx * ((k : Int) - 5) = 0 ∧ dy * ((k : Int) - 5) = 0)) :
    evalShapeInDirection (setCell emptyB y x p) x y dx dy p = 0 := by
  rw [evalShapeInDirection]
  have hcnt := extractLine_single y x dx dy p hp hd
  set line := extractLine (setCell emptyB y x p) x y dx dy p
    (if p == 1 then 2 else 1) with hline
  have hlen : line.length = 11 := by simp [hline, extractLine]
  have hw : ∀ i n, (slice line i n).count 1 ≤ 1 := by
    intro i n
    refine le_trans ?_ hcnt
    exact List.Sublist.count_le
      ((List.take_sublist _ _).trans (List.drop_sublist _ _)) 1
  have h6 : ∀ i, firstScoreOfLen 6 (normalizeMap (slice line i 6)) = 0 := fun i => by
    rw [normalizeMap_id]
    exact firstScore_zero_of_count1 6 _ (hw i 6)
  have h5 : ∀ i, firstScoreOfLen 5 (normalizeMap (slice line i 5)) = 0 := fun i => by
    rw [normalizeMap_id]
    exact firstScore_zero_of_count1 5 _ (hw i 5)
  rw [hlen]
  have hr : List.range (11 - 4) = [0, 1, 2, 3, 4, 5, 6] := rfl
  rw [hr]
  simp [h5, h6]

theorem patternTotal_single (y x : Int) (p : Nat) (hp : p = 1 ∨ p = 2) :
    patternTotal (setCell emptyB y x p) x y p = 0 := by
  rw [patternTotal, directions]
  have d1 := evalShape_single y x 1 0 p hp (by intro k hk h; omega)
  have d2 := evalShape_single y x 0 1 p hp (by intro k hk h; omega)
  have d3 := evalShape_single y x 1 1 p hp (by intro k hk h; omega)
  have d4 := evalShape_single y x 1 (-1) p hp (by intro k hk h; omega)
  simp [List.foldl_cons, d1, d2, d3, d4]

theorem posBonus_le (x y : Int) : posBonus x y ≤ 100 := by
  rw [posBonus]
  have hs : (0 : ℝ) ≤ Real.sqrt ((dist2 x y : Int) : ℝ) := Real.sqrt_nonneg _
  apply max_le
  · norm_num
  · nlinarith

theorem posBonus_nonneg (x y : Int) : 0 ≤ posBonus x y := le_max_left 0 _

theorem evalPos_single_le (y x : Int) (p : Nat) (hp : p = 1 ∨ p = 2) :
    evalPosAdvanced (setCell emptyB y x p) x y p ≤ 100 := by
  rw [evalPosAdvanced, patternTotal_single y x p hp]
  have := posBonus_le x y
  simp only [Nat.cast_zero]
  linarith

theorem findThreatsLoop_nil (human ai : Nat) (b : Board) (l : List (Int × Int))
    (h : ∀ c ∈ l, b c.1 c.2 = EMPTY →
      ¬(10000 < evalPosAdvanced (setCell b c.1 c.2 ai) c.2 c.1 ai ∨
        8000 < evalPosAdvanced (setCell b c.1 c.2 human) c.2 c.1 human)) :
    (findThreatsLoop human ai b l).1 = [] := by
  induction l with
  | nil => simp [findThreatsLoop]
  | cons c rest ih =>
    obtain ⟨y, x⟩ := c
    by_cases hc : b y x = EMPTY
    · have h1 : setCell (setCell b y x ai) y x human = setCell b y x human :=
        setCell_setCell ..
      have hres : setCell (setCell b y x human) y x EMPTY = b :=
        setCell_restore b y x human hc
      have hcond : ¬(10000 < evalPosAdvanced (setCell b y x ai) x y ai ∨
          8000 < evalPosAdvanced (setCell b y x human) x y human) :=
        h (y, x) (List.mem_cons_self ..) hc
      simp only [findThreatsLoop, hc, bne_self_eq_false, ite_false, h1, hres]
      rcases hrec : findThreatsLoop human ai b rest with ⟨ts, b4⟩
      have hts : ts = [] := by
        have h0 := ih fun u hu => h u (List.mem_cons_of_mem _ hu)
        rw [hrec] at h0
        exact h0
      simp only [hts]
      rw [pif_neg hcond]
      simp
    · have hne : (b y x != EMPTY) = true := by simpa using hc
      simp only [findThreatsLoop, hne, ite_true]
      exact ih fun u hu => h u (List.mem_cons_of_mem _ hu)

theorem findThreats_emptyB : (findThreats emptyB BLACK WHITE).1 = [] := by
  rw [findThreats]
  rcases hrec : findThreatsLoop BLACK WHITE emptyB allCells with ⟨ts, b1⟩
  have hts : ts = [] := by
    have h0 := findThreatsLoop_nil BLACK WHITE emptyB allCells ?_
    · rw [hrec] at h0
      exact h0
    · intro c _ _
      rintro (hlt | hlt)
      · have := evalPos_single_le c.1 c.2 WHITE (Or.inr rfl)
        linarith
      · have := evalPos_single_le c.1 c.2 BLACK (Or.inl rfl)
        linarith
  rw [hts]
  rfl

/-! ## Claim theorems -/

/-- C4: `calculateMediumMove` first returns the first cell in row-major
order where placing a white stone wins immediately; only when no such
cell exists does it return the first cell where black would win
immediately, as a block.  On the board whose only stones are black at
`(5,5)` through `(8,5)` it returns `(4,5)` or `(9,5)` (namely `(4,5)`,
the first blocking cell in row-major order). -/
theorem claim4_forced_phases :
    (∀ (b : Board) (r : Nat) (c : Int × Int),
      rowMajorFirstWin b WHITE = some c → (calcMediumMove b r).1 = c) ∧
    (∀ (b : Board) (r : Nat) (c : Int × Int),
      rowMajorFirstWin b WHITE = none → rowMajorFirstWin b BLACK = some c →
        (calcMediumMove b r).1 = c) ∧
    ∀ r : Nat,
      (calcMediumMove fourRowB r).1 = (4, 5) ∨ (calcMediumMove fourRowB r).1 = (9, 5) := by
  refine ⟨fun b r c h => calcMediumMove_white_win b r c h,
    fun b r c h1 h2 => calcMediumMove_block b r c h1 h2, fun r => ?_⟩
  exact Or.inl (calcMediumMove_block fourRowB r (4, 5) (by decide) (by decide))

/-- C4 witness: the open-four board is decided through the blocking
phase at the concrete cell `(4,5)`. -/
theorem claim4_witness : (calcMediumMove fourRowB 0).1 = (4, 5) :=
  claim4_forced_phases.2.1 fourRowB 0 (4, 5) (by decide) (by decide)

/-- C8: when neither side can win immediately, the threat scan is empty
and no empty cell has a neighbour within radius 2 (so the candidate list
is empty), `calculateMediumMove` returns the center `(7,7)`; on the
empty board all of this holds, so the result is `(7,7)`. -/
theorem claim8_center :
    (∀ (b : Board) (r : Nat),
      rowMajorFirstWin b WHITE = none → rowMajorFirstWin b BLACK = none →
      (findThreats b BLACK WHITE).1 = [] → candList b = [] →
      (calcMediumMove b r).1 = (7, 7)) ∧
    ∀ r : Nat, (calcMediumMove emptyB r).1 = (7, 7) := by
  refine ⟨fun b r h1 h2 h3 h4 => calcMediumMove_center b r h1 h2 h3 h4, fun r => ?_⟩
  exact calcMediumMove_center emptyB r (by decide) (by decide) findThreats_emptyB
    (by decide)

/-- C8 witness: the empty board at a concrete random seed. -/
theorem claim8_witness : (calcMediumMove emptyB 3).1 = (7, 7) :=
  claim8_center.1 emptyB 3 (by decide) (by decide) findThreats_emptyB (by decide)

/-- C10: `calculateMediumMove` is deterministic — its result does not
depend on the random draw, because whenever the candidate list is
non-empty the evaluation loop produces a non-null best move (any finite
score beats the initial `-Infinity`), so the random fallback is
unreachable, and the empty-candidate case returns the center earlier. -/
theorem claim10_deterministic :
    (∀ (b : Board) (r r' : Nat), calcMediumMove b r = calcMediumMove b r') ∧
    ∀ b : Board, candList b ≠ [] → (evalLoop none b (candList b)).1.isSome := by
  exact ⟨fun b r r' => calcMediumMove_rand_free b r r',
    fun b h => evalLoop_isSome (candList b) none b (Or.inr h)⟩

/-- C10 witness: on the open-four board the candidate list is non-empty,
so the evaluation loop yields a move and the fallback cannot fire. -/
theorem claim10_witness :
    (evalLoop none fourRowB (candList fourRowB)).1.isSome :=
  claim10_deterministic.2 fourRowB (by decide)

/-- C5: every engine operation leaves the board exactly as it found it,
on every exit path: the board component returned by the explicit-state
model equals the input board, so `checkWin` and
`evaluatePositionAdvanced` results after any call equal their pre-call
values.  For `canBlockMultipleThreats` the threats are required to be
coordinates (in range, per the data model) of empty cells, which every
caller in the engine guarantees. -/
theorem claim5_no_leak :
    ∀ b : Board,
      (∀ r : Nat, (calcMediumMove b r).2 = b) ∧
      (analyzeBoard b).final = b ∧
      (∀ p : Nat, (detectThreats b p).2 = b) ∧
      (findWinningThreats b).2 = b ∧
      (∀ n : Nat, (findBestMoves b n).2 = b) ∧
      (∀ ts : List (Int × Int),
        (∀ t ∈ ts, inR t.1 t.2 = true ∧ b t.2 t.1 = EMPTY) →
        (canBlockMultipleThreats b ts).2 = b) ∧
      (∀ (x y : Int) (p : Nat),
        checkWin ((analyzeBoard b).final) x y p = checkWin b x y p ∧
        evalPosAdvanced ((analyzeBoard b).final) x y p = evalPosAdvanced b x y p) := by
  intro b
  have hfin : (analyzeBoard b).final = b := analyzeBoard_final b
  refine ⟨fun r => calcMediumMove_snd b r, hfin, ?_, ?_,
    fun n => findBestMoves_snd b n, ?_, ?_⟩
  · intro p
    rw [detectThreats_eq]
  · rw [findWinningThreats_eq]
  · intro ts h
    exact canBlock_snd b ts fun t ht => (h t ht).2
  · intro x y p
    rw [hfin]
    exact ⟨rfl, rfl⟩

/-- C5 witness: the rollback of `canBlockMultipleThreats` at a concrete
board and threat list. -/
theorem claim5_witness :
    (canBlockMultipleThreats emptyB [(0, 0), (3, 4)]).2 = emptyB :=
  (claim5_no_leak emptyB).2.2.2.2.2.1 [(0, 0), (3, 4)] (by decide)

/-- C3 counterexample: on `scenarioB`, black has two live-threes on
independent axes (a horizontal one on row 2 and a vertical one on
column 11) with no common blocking cell, the threat detector reports
more than one live-three cell, and `analyzeBoard` does set
`urgencyLevel` to critical — but `shouldSurrender` stays false, because
`canBlockMultipleThreats` judges each threat with `checkWin` and a
single black stone completing a live three never makes five in a row.
The claim asserts `shouldSurrender = true` for this scenario. -/
theorem claim3_counterexample :
    1 < (detectThreats scenarioB BLACK).1.liveThree.length ∧
    (analyzeBoard scenarioB).urgency = Urgency.critical ∧
    ¬(analyzeBoard scenarioB).surrender := by
  refine ⟨scen_three_len, ?_, ?_⟩
  · rw [analyzeBoard_urgency]
    exact scen_urgency
  · rw [analyzeBoard_surrender]
    exact scen_not_surrender

/-- C3 amended: `analyzeBoard` sets `urgencyLevel` to critical whenever
either side has a live-four threat cell or two or more live-three threat
cells (an immediate winning move also sets critical, but a later branch
can overwrite it to high when black has exactly one live-three, so the
winning-move clause of the original claim does not hold unconditionally);
when black has two or more live-threes the `canBlockMultipleThreats`
check decides `shouldSurrender`, but since that check judges threats by
immediate five-in-a-row it reports the double-live-three scenario
blockable: on such a board `analyzeBoard` returns critical with
`shouldSurrender = false`. -/
theorem claim3_amended :
    (∀ b : Board,
      ((detectThreats b BLACK).1.liveFour ≠ [] ∨
        1 < (detectThreats b BLACK).1.liveThree.length ∨
        (detectThreats b WHITE).1.liveFour ≠ [] ∨
        1 < (detectThreats b WHITE).1.liveThree.length) →
      (analyzeBoard b).urgency = Urgency.critical) ∧
    ((analyzeBoard scenarioB).urgency = Urgency.critical ∧
      (canBlockMultipleThreats scenarioB
        (detectThreats scenarioB BLACK).1.liveThree).1 = true ∧
      ¬(analyzeBoard scenarioB).surrender) := by
  constructor
  · intro b h
    rw [analyzeBoard_urgency]
    exact pureUrgency_critical b h
  · refine ⟨?_, scen_canBlock_true, ?_⟩
    · rw [analyzeBoard_urgency]
      exact scen_urgency
    · rw [analyzeBoard_surrender]
      exact scen_not_surrender

/-- C3 witness: the critical-urgency clause applied to the concrete
scenario board, its live-three count discharged by the membership
facts. -/
theorem claim3_witness : (analyzeBoard scenarioB).urgency = Urgency.critical :=
  claim3_amended.1 scenarioB (Or.inr (Or.inl scen_three_len))

/-- C7: `canBlockMultipleThreats` returns true for every list of at most
one threat, and for every non-empty list of threats that all share one
coordinate (which, being a coordinate, is on the board): the early
return handles the first case, and the all-same check after the
candidate loop guarantees the second. -/
theorem claim7_degenerate :
    (∀ (b : Board) (threats : List (Int × Int)), threats.length ≤ 1 →
      (canBlockMultipleThreats b threats).1 = true) ∧
    (∀ (b : Board) (threats : List (Int × Int)), threats ≠ [] →
      (∀ t ∈ threats, t = threats.headD (0, 0)) →
      (∀ t ∈ threats, inR t.1 t.2 = true) →
      (canBlockMultipleThreats b threats).1 = true) := by
  constructor
  · intro b threats hlen
    simp [canBlockMultipleThreats, hlen]
  · intro b threats hne hall hinr
    rw [canBlockMultipleThreats]
    by_cases hlen : threats.length ≤ 1
    · simp [hlen]
    · simp only [hlen, ite_false]
      rcases hloop : canBlockLoop threats b allCells with ⟨found, b1⟩
      have hsame : allSameThreat threats = true := by
        rw [allSameThreat, List.all_eq_true]
        intro t ht
        simpa using hall t ht
      have h1l : decide (1 < threats.length) = true := by
        simp
        omega
      cases found <;> simp [hsame, h1l]

/-- C7 witness: a two-element all-equal threat list on the empty board. -/
theorem claim7_witness :
    (canBlockMultipleThreats emptyB [(2, 2), (2, 2)]).1 = true :=
  claim7_degenerate.2 emptyB [(2, 2), (2, 2)] (by decide) (by decide) (by decide)

theorem situationScores_fst_nonneg_aux (b : Board) (l : List (Int × Int))
    (s : ℝ × ℝ) (h : 0 ≤ s.1) :
    0 ≤ (l.foldl
      (fun s c =>
        if b c.1 c.2 == WHITE then (s.1 + evalPosAdvanced b c.2 c.1 WHITE, s.2)
        else if b c.1 c.2 == BLACK then (s.1, s.2 + evalPosAdvanced b c.2 c.1 BLACK)
        else s)
      s).1 := by
  induction l generalizing s with
  | nil => simpa using h
  | cons c rest ih =>
    rw [List.foldl_cons]
    by_cases hw : (b c.1 c.2 == WHITE) = true
    · refine ih _ ?_
      have he : 0 ≤ evalPosAdvanced b c.2 c.1 WHITE := by
        rw [evalPosAdvanced]
        have := posBonus_nonneg c.2 c.1
        positivity
      simp only [hw, ite_true]
      simpa using add_nonneg h he
    · by_cases hb : (b c.1 c.2 == BLACK) = true
      · refine ih _ ?_
        simpa [hw, hb] using h
      · refine ih _ ?_
        simpa [hw, hb] using h

/-- C9: the advanced position evaluation is non-negative for every
board, coordinate and player (every `SHAPE_SCORES` score is positive
and the center bonus is clamped at 0), so the aggregate `whiteScore` of
`evaluateBoardSituation` is non-negative and the surrender condition
`whiteScore < -50000` of `analyzeBoard` can never hold. -/
theorem claim9_nonneg :
    (∀ e ∈ shapeScores, 0 < e.1) ∧
    (∀ (b : Board) (x y : Int) (p : Nat), 0 ≤ evalPosAdvanced b x y p) ∧
    (∀ b : Board, 0 ≤ (boardSituationScores b).1) ∧
    (∀ b : Board, ¬(boardSituationScores b).1 < -50000) := by
  have hpos : ∀ (b : Board) (x y : Int) (p : Nat), 0 ≤ evalPosAdvanced b x y p := by
    intro b x y p
    rw [evalPosAdvanced]
    have := posBonus_nonneg x y
    positivity
  have hw : ∀ b : Board, 0 ≤ (boardSituationScores b).1 := fun b =>
    situationScores_fst_nonneg_aux b allCells (0, 0) (by norm_num)
  exact ⟨by decide, hpos, hw, fun b hlt => absurd hlt (by have := hw b; linarith)⟩

/-- C9 witness: the positivity clause applied to the first table entry,
and the non-negativity of the evaluation at a concrete call. -/
theorem claim9_witness :
    0 < ((50 : Nat), ([0, 1, 1, 0, 0] : List Nat)).1 ∧
      0 ≤ evalPosAdvanced emptyB 7 7 BLACK :=
  ⟨claim9_nonneg.1 (50, [0, 1, 1, 0, 0]) (by decide),
    claim9_nonneg.2.1 emptyB 7 7 BLACK⟩

theorem allSameThreat_false (threats : List (Int × Int))
    (h : ∃ t1 ∈ threats, ∃ t2 ∈ threats, t1 ≠ t2) :
    allSameThreat threats = false := by
  cases hb : allSameThreat threats
  · rfl
  · exfalso
    obtain ⟨t1, h1, t2, h2, hne12⟩ := h
    rw [allSameThreat, List.all_eq_true] at hb
    have e1 := hb t1 h1
    have e2 := hb t2 h2
    simp only [beq_iff_eq] at e1 e2
    exact hne12 (e1.trans e2.symm)

/-- C2: for at least two threat coordinates, not all equal, all naming
empty on-board cells, `canBlockMultipleThreats` returns true exactly
when some empty cell `C` exists such that, with the white stone placed
at `C`, no listed threat other than `C` itself wins for black when a
black stone is played there (as judged by `checkWin`); with no such
cell it returns false. -/
theorem claim2_blockability (b : Board) (threats : List (Int × Int))
    (hlen : 2 ≤ threats.length)
    (hnall : ∃ t1 ∈ threats, ∃ t2 ∈ threats, t1 ≠ t2)
    (hthreat : ∀ t ∈ threats, inR t.1 t.2 = true ∧ b t.2 t.1 = EMPTY) :
    (canBlockMultipleThreats b threats).1 = true ↔
      ∃ x y : Int, 0 ≤ x ∧ x < 15 ∧ 0 ≤ y ∧ y < 15 ∧ b y x = EMPTY ∧
        ∀ t ∈ threats, t ≠ (x, y) →
          checkWin (setCell (setCell b y x WHITE) t.2 t.1 BLACK) t.1 t.2 BLACK =
            false := by
  have hemp : ∀ t ∈ threats, b t.2 t.1 = EMPTY := fun t ht => (hthreat t ht).2
  rw [canBlock_eq b threats hemp]
  have hlen1 : ¬threats.length ≤ 1 := by omega
  have hsame : allSameThreat threats = false := allSameThreat_false threats hnall
  simp only [hlen1, ite_false, hsame, Bool.and_false]
  constructor
  · intro h
    by_cases hany :
        (allCells.any fun c => b c.1 c.2 == EMPTY && blocksAllAt b threats c.1 c.2) = true
    · obtain ⟨c, hcm, hpred⟩ := List.any_eq_true.mp hany
      obtain ⟨y, x⟩ := c
      simp only [Bool.and_eq_true, beq_iff_eq] at hpred
      obtain ⟨hce, hba⟩ := hpred
      obtain ⟨hy0, hy15, hx0, hx15⟩ := (mem_allCells y x).mp hcm
      refine ⟨x, y, hx0, hx15, hy0, hy15, hce, ?_⟩
      intro t ht htne
      rw [blocksAllAt, List.all_eq_true] at hba
      have := hba t ht
      have hg : (t.1 == x && t.2 == y) = false := by
        have : ¬(t.1 = x ∧ t.2 = y) := fun hc => htne (Prod.ext hc.1 hc.2)
        rcases not_and_or.mp this with h1 | h1 <;> simp [h1]
      simp only [hg, Bool.false_or, Bool.not_eq_true'] at this
      exact this
    · rw [if_neg (by simpa using hany)] at h
      simp at h
  · rintro ⟨x, y, hx0, hx15, hy0, hy15, hce, hall⟩
    have hany :
        (allCells.any fun c => b c.1 c.2 == EMPTY && blocksAllAt b threats c.1 c.2) =
          true := by
      rw [List.any_eq_true]
      refine ⟨(y, x), (mem_allCells y x).mpr ⟨hy0, hy15, hx0, hx15⟩, ?_⟩
      simp only [Bool.and_eq_true, beq_iff_eq]
      refine ⟨hce, ?_⟩
      rw [blocksAllAt, List.all_eq_true]
      intro t ht
      by_cases hteq : t = (x, y)
      · simp [hteq]
      · have := hall t ht hteq
        simp [this]
    simp [hany]

theorem runCellOk_ne (b : Board) (p : Nat) (x y dx dy o : Int)
    (ho : (o == 0) = false) :
    runCellOk b p x y dx dy o = stepOk b p x y dx dy o := by
  rw [runCellOk, stepOk, ho]
  simp

theorem runCellOk_zero (b : Board) (p : Nat) (x y dx dy : Int)
    (hx : inR x y = true) : runCellOk b p x y dx dy 0 = true := by
  rw [runCellOk]
  simp [hx]

theorem count_window : ∀ f1 f2 f3 f4 g1 g2 g3 g4 : Bool,
    decide (5 ≤
        (1 + (bif f1 then bif f2 then bif f3 then bif f4 then 4 else 3 else 2 else 1 else 0))
        + (bif g1 then bif g2 then bif g3 then bif g4 then 4 else 3 else 2 else 1 else 0)) =
      (g4 && (g3 && (g2 && g1)) ||
        (g3 && (g2 && (g1 && f1)) ||
          (g2 && (g1 && (f1 && f2)) ||
            (g1 && (f1 && (f2 && f3)) ||
              f1 && (f2 && (f3 && f4)))))) := by
  decide

theorem dir_iff (b : Board) (p : Nat) (x y dx dy : Int) (hx : inR x y = true) :
    (decide (5 ≤ lineCount b x y dx dy p)) =
      ((List.range 5).any fun (j : Nat) =>
        (List.range 5).all fun (t : Nat) =>
          runCellOk b p x y dx dy ((j : Int) - 4 + (t : Int))) := by
  have hr5 : List.range 5 = [0, 1, 2, 3, 4] := rfl
  have m4 := runCellOk_ne b p x y dx dy (-4) (by decide)
  have m3 := runCellOk_ne b p x y dx dy (-3) (by decide)
  have m2 := runCellOk_ne b p x y dx dy (-2) (by decide)
  have m1 := runCellOk_ne b p x y dx dy (-1) (by decide)
  have p1 := runCellOk_ne b p x y dx dy 1 (by decide)
  have p2 := runCellOk_ne b p x y dx dy 2 (by decide)
  have p3 := runCellOk_ne b p x y dx dy 3 (by decide)
  have p4 := runCellOk_ne b p x y dx dy 4 (by decide)
  have h0 := runCellOk_zero b p x y dx dy hx
  rw [hr5]
  norm_num [List.any_cons, List.any_nil, List.all_cons, List.all_nil]
  rw [m4, m3, m2, m1, p1, p2, p3, p4, h0]
  rw [lineCount]
  beta_reduce
  simp only [Bool.and_true, Bool.true_and]
  exact count_window (stepOk b p x y dx dy 1) (stepOk b p x y dx dy 2)
    (stepOk b p x y dx dy 3) (stepOk b p x y dx dy 4) (stepOk b p x y dx dy (-1))
    (stepOk b p x y dx dy (-2)) (stepOk b p x y dx dy (-3)) (stepOk b p x y dx dy (-4))

/-- C1: for every board, every in-range coordinate and every player,
`checkWin` returns true exactly when one of the four axes carries a run
of five consecutive on-board cells through `(x, y)` consisting of the
player's stones, the queried cell itself counting once (per the
counting contract of the win detector); consequently it returns false
whenever every axis has at most four consecutive stones through the
cell. -/
theorem claim1_checkWin_iff (b : Board) (x y : Int) (p : Nat)
    (hx0 : 0 ≤ x) (hx15 : x < 15) (hy0 : 0 ≤ y) (hy15 : y < 15) :
    checkWin b x y p = fiveRunThrough b x y p := by
  have hx : inR x y = true := by
    simp [inR, hx0, hx15, hy0, hy15]
  rw [checkWin, fiveRunThrough, directions]
  simp only [List.any_cons, List.any_nil]
  rw [dir_iff b p x y 1 0 hx, dir_iff b p x y 0 1 hx, dir_iff b p x y 1 1 hx,
    dir_iff b p x y 1 (-1) hx]

/-- C1 witness: the equivalence instantiated on the open-four board at
the in-range cell `(5, 5)` for black. -/
theorem claim1_witness :
    checkWin fourRowB 5 5 BLACK = fiveRunThrough fourRowB 5 5 BLACK :=
  claim1_checkWin_iff fourRowB 5 5 BLACK (by decide) (by decide) (by decide)
    (by decide)

theorem find?_congr_on {α : Type u} (l : List α) (p q : α → Bool)
    (h : ∀ a ∈ l, p a = q a) : l.find? p = l.find? q := by
  induction l with
  | nil => rfl
  | cons a l ih =>
    rw [List.find?_cons, List.find?_cons, h a (List.mem_cons_self ..)]
    cases hq : q a
    · simp only [ih fun u hu => h u (List.mem_cons_of_mem _ hu)]
    · rfl

theorem firstScore_eq_firstEq (len : Nat) (w : List Nat) :
    firstScoreOfLen len w =
      (match shapeScores.find? (fun e => e.2.length == len && w == e.2) with
       | some e => e.1
       | none => 0) := by
  rw [firstScoreOfLen]
  have hcong : shapeScores.find? (fun e => e.2.length == len && matchPattern w e.2) =
      shapeScores.find? (fun e => e.2.length == len && (w == e.2)) :=
    find?_congr_on _ _ _ fun e he => by
      rw [matchPattern_eq w e.2 (shapeScores_bounded e he)]
  rw [hcong]

/-- C6: the per-direction evaluation adds, at each window offset, the
score of the first `SHAPE_SCORES` entry (in table order) whose template
has the window's length and literally equals the window — the 6-cell
windows (6 offsets) and the 5-cell windows (7 offsets) of the 11-cell
line are scored independently, so overlapping matches of different
lengths all contribute to the accumulated directional score. -/
theorem claim6_window_sums (b : Board) (x y dx dy : Int) (p : Nat) :
    evalShapeInDirection b x y dx dy p = specDirScore b x y dx dy p := by
  simp only [evalShapeInDirection, specDirScore]
  have hlen : (extractLine b x y dx dy p (if p == 1 then 2 else 1)).length = 11 := by
    simp [extractLine]
  simp only [hlen]
  norm_num
  rw [show List.range 7 = [0, 1, 2, 3, 4, 5, 6] from rfl,
    show List.range 6 = [0, 1, 2, 3, 4, 5] from rfl]
  simp only [List.foldl_cons, List.foldl_nil, List.map_cons, List.map_nil,
    List.sum_cons, List.sum_nil, normalizeMap_id, firstScore_eq_firstEq]
  norm_num
  ring

/-- C2 witness: the two-threat list `[(0,0), (5,5)]` on the empty board
satisfies every hypothesis of the blockability equivalence. -/
theorem claim2_witness :
    (canBlockMultipleThreats emptyB [(0, 0), (5, 5)]).1 = true ↔
      ∃ x y : Int, 0 ≤ x ∧ x < 15 ∧ 0 ≤ y ∧ y < 15 ∧ emptyB y x = EMPTY ∧
        ∀ t ∈ [((0 : Int), (0 : Int)), ((5 : Int), (5 : Int))], t ≠ (x, y) →
          checkWin (setCell (setCell emptyB y x WHITE) t.2 t.1 BLACK) t.1 t.2 BLACK =
            false :=
  claim2_blockability emptyB [(0, 0), (5, 5)] (by decide) (by decide) (by decide)

end Gomoku
